import Mathlib

/-! Shallow embedding of the loot-generation engine (package `loot`).

The Go source threads a shared random stream (`math/rand`) through all
rolling operations.  We model the stream as a list of raw non-negative
draws: `rand.Intn n` (only ever called with `n > 0` in the source)
consumes the head draw `d` and yields `d % n`, which lies in `[0, n)`;
an exhausted stream yields `0`.  Machine integers of the source (`int`)
are modelled as `Int` (no overflow is relevant to any claim).

External collaborators (the item / enchantment / potion catalogs of the
surrounding server, `world.ItemByName`, `EnchantmentType.CompatibleWithItem`,
`EnchantmentType.MaxLevel`) are out of scope of the repository and are
modelled as an abstract `Registry` record, exactly as the design document
treats them (registry adapters with a lookup contract).
-/

set_option linter.dupNamespace false

namespace Loot

/-- The shared random stream: a list of raw draws. -/
abbrev RandStream := List Nat

/-- Models `rand.Intn n` for `n > 0`: consumes the head draw and reduces it
modulo `n`, so the result is always in `[0, n)`; an empty stream yields `0`. -/
def intn (n : Int) (g : RandStream) : Int × RandStream :=
  match g with
  | [] => (0, [])
  | d :: g' => ((d : Int) % n, g')

/-- Source `type Value struct { Min, Max int }` (source lines 88-90). -/
structure Value where
  Min : Int
  Max : Int
deriving DecidableEq

/-- Source `type EnchantConfig struct { ID string; Level Value }` (source lines 83-86). -/
structure EnchantConfig where
  ID : String
  Level : Value
deriving DecidableEq

/-- Source `type Function struct` (source lines 75-81).  The Go field `Function`
is kept under the same name. -/
structure Function where
  Function : String
  Count : Value
  Levels : Value
  ID : String
  Enchants : List EnchantConfig
deriving DecidableEq

/-- Source `type Entry struct` (source lines 68-73).  The Go field `Type` is named
`Typ` because `Type` is a Lean keyword. -/
structure Entry where
  Typ : String
  Name : String
  Weight : Int
  Functions : List Function
deriving DecidableEq

/-- Source `type Pool struct { Rolls Value; Entries []Entry }` (source lines 63-66). -/
structure Pool where
  Rolls : Value
  Entries : List Entry
deriving DecidableEq

/-- Source `type LootTable struct { Pools []Pool }` (source lines 59-61). -/
structure LootTable where
  Pools : List Pool
deriving DecidableEq

/-- Item kinds, as far as the engine observes them: the `set_potion`
function type-switches on `item.Potion` and `item.SplashPotion`; every
other item is opaque to the engine.  Potion variants are identified by
an opaque token (a string). -/
inductive Item where
  | potion (t : String)
  | splashPotion (t : String)
  | simple (name : String)
deriving DecidableEq

/-- An enchantment catalog entity: an identity plus its `MaxLevel()` fact.
Item compatibility (`CompatibleWithItem`) lives in the `Registry` so the
data stays decidable. -/
structure EnchantmentType where
  id : String
  maxLevel : Int
deriving DecidableEq

/-- One attached enchantment (`item.NewEnchantment(enc, lvl)`). -/
structure Enchantment where
  typ : EnchantmentType
  lvl : Int
deriving DecidableEq

/-- A generated item stack: item kind, count, attached enchantments. -/
structure Stack where
  it : Item
  count : Int
  enchants : List Enchantment
deriving DecidableEq

/-- The zero value `item.Stack{}` returned on every failing branch. -/
def emptyStack : Stack := ⟨Item.simple "", 0, []⟩

/-- Models `item.NewStack(it, count)`: a fresh stack with no enchantments. -/
def newStack (it : Item) (count : Int) : Stack := ⟨it, count, []⟩

/-- Models `s.WithEnchantments(e)`: attaches `e`, replacing any enchantment of the
same type already present. -/
def withEnchantment (s : Stack) (e : Enchantment) : Stack :=
  { s with enchants := (s.enchants.filter (fun x => x.typ ≠ e.typ)) ++ [e] }

/-- The external registry adapters the engine consumes (design §6):
item-by-identifier, the enchantment catalog with compatibility and the
catalog entities behind the name maps of the source. `enchVal k` is the
external enchantment constant the source maps key `k` to, and
`potionVal k` the external potion constant for key `k`. -/
structure Registry where
  itemByName : String → Option Item
  allEnchantments : List EnchantmentType
  compat : EnchantmentType → Item → Bool
  enchVal : String → EnchantmentType
  potionVal : String → String

/-- Models `strings.TrimPrefix p` applied to `s`: drops `p` from the front of `s`
when it is a prefix, otherwise returns `s` unchanged. -/
def trimPre (p s : String) : String :=
  if p.data.isPrefixOf s.data then String.mk (s.data.drop p.data.length) else s

/-- Models `strings.ToLower` (per-character lowering; all identifiers involved are
ASCII). -/
def lowerStr (s : String) : String := String.mk (s.data.map Char.toLower)

/-- The key set of the enchantment name map in `enchantmentByName`
(source lines 188-215). -/
def enchantKeys : List String :=
  ["protection", "fire_protection", "feather_falling", "blast_protection",
   "projectile_protection", "thorns", "respiration", "depth_strider",
   "aqua_affinity", "sharpness", "knockback", "fire_aspect", "efficiency",
   "silk_touch", "unbreaking", "fortune", "power", "punch", "flame",
   "infinity", "mending", "curse_of_vanishing", "multishot", "quick_charge",
   "soul_speed", "swift_sneak"]

/-- The key set of the potion name map in `potionByName`
(source lines 236-280). -/
def potionKeys : List String :=
  ["water", "mundane", "long_mundane", "thick", "awkward", "night_vision",
   "long_night_vision", "invisibility", "long_invisibility", "leaping",
   "long_leaping", "strong_leaping", "fire_resistance", "long_fire_resistance",
   "swiftness", "long_swiftness", "strong_swiftness", "slowness",
   "long_slowness", "strong_slowness", "water_breathing",
   "long_water_breathing", "healing", "strong_healing", "harming",
   "strong_harming", "poison", "long_poison", "strong_poison",
   "regeneration", "long_regeneration", "strong_regeneration", "strength",
   "long_strength", "strong_strength", "weakness", "long_weakness", "wither",
   "turtle_master", "long_turtle_master", "strong_turtle_master",
   "slow_falling", "long_slow_falling"]

/-- Source `enchantmentByName` (lines 186-218): lowers the name after
stripping the `minecraft:` prefix, then looks it up in the fixed map;
a miss returns the zero value and `false`. -/
def enchantmentByName (reg : Registry) (name : String) : EnchantmentType × Bool :=
  let n := lowerStr (trimPre "minecraft:" name)
  if n ∈ enchantKeys then (reg.enchVal n, true) else (⟨"", 0⟩, false)

/-- Source `potionByName` (lines 234-283). -/
def potionByName (reg : Registry) (name : String) : String × Bool :=
  let n := lowerStr (trimPre "minecraft:" name)
  if n ∈ potionKeys then (reg.potionVal n, true) else ("", false)

/-- Source `RollValue` (lines 177-182). -/
def RollValue (v : Value) (g : RandStream) : Int × RandStream :=
  if v.Max ≤ v.Min then (v.Min, g)
  else
    let p := intn (v.Max - v.Min + 1) g
    (p.1 + v.Min, p.2)

/-- The effective weight used when accumulating `totalWeight`
(source lines 114-117): exactly weight `0` is replaced by `1`; negative
weights are kept. -/
def normWeight (w : Int) : Int := if w = 0 then 1 else w

/-- The `totalWeight` accumulated by the first loop of `rollEntry`
(source lines 112-118). -/
def totalWeight : List Entry → Int
  | [] => 0
  | e :: rest => normWeight e.Weight + totalWeight rest

/-- Source `getAllEnchantments` (lines 220-232) is the catalog list of the
registry adapter. -/
def getAllEnchantments (reg : Registry) : List EnchantmentType :=
  reg.allEnchantments

/-- Source `applyRandomEnchant` (lines 287-299): filter the catalog by
compatibility, pick one valid enchantment uniformly, attach at level 1. -/
def applyRandomEnchant (reg : Registry) (s : Stack) (g : RandStream) :
    Stack × RandStream :=
  let valid := (getAllEnchantments reg).filter (fun enc => reg.compat enc s.it)
  if 0 < valid.length then
    let p := intn (valid.length : Int) g
    (withEnchantment s ⟨valid.getD p.1.toNat ⟨"", 0⟩, 1⟩, p.2)
  else (s, g)

/-- The catalog loop of `applyEnchantWithLevels` (source lines 302-313):
on the first compatible enchantment with `levels > 0` it returns; with
`levels ≤ 0` the loop keeps iterating and never attaches anything. -/
def enchantWithLevelsAux (reg : Registry) (s : Stack) (levels : Int)
    (g : RandStream) : List EnchantmentType → Stack × RandStream
  | [] => (s, g)
  | enc :: rest =>
    if reg.compat enc s.it then
      if 0 < levels then
        if 15 < levels ∧ 1 < enc.maxLevel then
          let p := intn enc.maxLevel g
          (withEnchantment s ⟨enc, p.1 + 1⟩, p.2)
        else (withEnchantment s ⟨enc, 1⟩, g)
      else enchantWithLevelsAux reg s levels g rest
    else enchantWithLevelsAux reg s levels g rest

/-- Source `applyEnchantWithLevels` (lines 301-315). -/
def applyEnchantWithLevels (reg : Registry) (s : Stack) (levels : Int)
    (g : RandStream) : Stack × RandStream :=
  enchantWithLevelsAux reg s levels g (getAllEnchantments reg)

/-- The `specific_enchants` inner loop (source lines 156-160): for each
config whose id resolves, attach it at a freshly rolled level; unresolved
ids draw nothing and are skipped. -/
def applySpecificEnchants (reg : Registry) :
    List EnchantConfig → Stack → RandStream → Stack × RandStream
  | [], s, g => (s, g)
  | c :: cs, s, g =>
    let r := enchantmentByName reg c.ID
    if r.2 then
      let p := RollValue c.Level g
      applySpecificEnchants reg cs (withEnchantment s ⟨r.1, p.1⟩) p.2
    else applySpecificEnchants reg cs s g

/-- The `set_potion` case (source lines 161-168): resolve the potion; if the
stack is a potion or splash potion, rebuild it as a fresh stack of the same
container kind with the resolved variant, preserving the count. -/
def applySetPotion (reg : Registry) (s : Stack) (id : String) : Stack :=
  let r := potionByName reg id
  if r.2 then
    match s.it with
    | Item.potion _ => newStack (Item.potion r.1) s.count
    | Item.splashPotion _ => newStack (Item.splashPotion r.1) s.count
    | Item.simple _ => s
  else s

/-- One iteration of the second function loop of `rollEntry`
(source lines 149-170): the `switch` over the function name.  `set_count`
falls into the default no-op branch here. -/
def applyOne (reg : Registry) (f : Function) (s : Stack) (g : RandStream) :
    Stack × RandStream :=
  if f.Function = "enchant_randomly" then applyRandomEnchant reg s g
  else if f.Function = "enchant_with_levels" then
    let p := RollValue f.Levels g
    applyEnchantWithLevels reg s p.1 p.2
  else if f.Function = "specific_enchants" then
    applySpecificEnchants reg f.Enchants s g
  else if f.Function = "set_potion" then (applySetPotion reg s f.ID, g)
  else (s, g)

/-- The second function loop of `rollEntry` (source lines 149-170). -/
def applyFunctions (reg : Registry) :
    List Function → Stack → RandStream → Stack × RandStream
  | [], s, g => (s, g)
  | f :: fs, s, g =>
    let p := applyOne reg f s g
    applyFunctions reg fs p.1 p.2

/-- The count pre-pass of `rollEntry` (source lines 140-145): starts at 1,
every `set_count` function re-rolls the count (last one wins), drawing from
the stream as it goes. -/
def countPrePass (fs : List Function) (g : RandStream) : Int × RandStream :=
  fs.foldl
    (fun acc f => if f.Function = "set_count" then RollValue f.Count acc.2 else acc)
    (1, g)

/-- The function phase of `rollEntry` for a resolved item (source lines
140-170): count pre-pass, stack creation, then the second function loop. -/
def runFunctions (reg : Registry) (it : Item) (fs : List Function)
    (g : RandStream) : Stack × RandStream :=
  let p := countPrePass fs g
  applyFunctions reg fs (newStack it p.1) p.2

/-- The selected-entry body of `rollEntry` (source lines 129-171): type
check, item resolution (prefix-normalised), then the function phase. -/
def processEntry (reg : Registry) (e : Entry) (g : RandStream) :
    (Stack × Bool) × RandStream :=
  if e.Typ ≠ "item" then ((emptyStack, false), g)
  else
    match reg.itemByName ("minecraft:" ++ trimPre "minecraft:" e.Name) with
    | none => ((emptyStack, false), g)
    | some it =>
      let p := runFunctions reg it e.Functions g
      ((p.1, true), p.2)

/-- The selection walk of `rollEntry` (source lines 124-173): accumulate the
raw (un-normalised) weights; the first entry whose cumulative sum exceeds
`r` is processed; falling off the end yields the zero stack and `false`. -/
def walkEntries (reg : Registry) :
    List Entry → Int → Int → RandStream → (Stack × Bool) × RandStream
  | [], _, _, g => ((emptyStack, false), g)
  | e :: rest, r, current, g =>
    if r < current + e.Weight then processEntry reg e g
    else walkEntries reg rest r (current + e.Weight) g

/-- Source `rollEntry` (lines 111-175). -/
def rollEntry (reg : Registry) (p : Pool) (g : RandStream) :
    (Stack × Bool) × RandStream :=
  if totalWeight p.Entries ≤ 0 then ((emptyStack, false), g)
  else
    let q := intn (totalWeight p.Entries) g
    walkEntries reg p.Entries q.1 0 q.2

/-- The inner roll loop of `LootTable.Generate` (source lines 48-52):
`n` independent calls to `rollEntry`, keeping the successful stacks in
roll order. -/
def genRolls (reg : Registry) (p : Pool) : Nat → RandStream → List Stack × RandStream
  | 0, g => ([], g)
  | n + 1, g =>
    let q := rollEntry reg p g
    let rest := genRolls reg p n q.2
    ((if q.1.2 then [q.1.1] else []) ++ rest.1, rest.2)

/-- One pool of `LootTable.Generate` (source lines 46-53): roll the pool's
roll count, then perform that many entry rolls. -/
def genPool (reg : Registry) (p : Pool) (g : RandStream) : List Stack × RandStream :=
  let q := RollValue p.Rolls g
  genRolls reg p q.1.toNat q.2

/-- The pool loop of `LootTable.Generate`: pools processed in declaration
order, stacks accumulated in order. -/
def genPools (reg : Registry) : List Pool → RandStream → List Stack × RandStream
  | [], g => ([], g)
  | p :: ps, g =>
    let q := genPool reg p g
    let rest := genPools reg ps q.2
    (q.1 ++ rest.1, rest.2)

/-- Source `LootTable.Generate` (lines 44-55). -/
def Generate (reg : Registry) (t : LootTable) (g : RandStream) :
    List Stack × RandStream :=
  genPools reg t.Pools g

/-- The index selected by the walk of `rollEntry` over raw weights:
`some i` when entry `i` is the first whose cumulative raw weight exceeds
`r`, `none` when the walk falls off the end. -/
def selectIdx : List Entry → Int → Int → Option Nat
  | [], _, _ => none
  | e :: rest, r, current =>
    if r < current + e.Weight then some 0
    else (selectIdx rest r (current + e.Weight)).map (· + 1)

/-- The default `Entry` used with `List.getD`. -/
def defaultEntry : Entry := ⟨"", "", 0, []⟩

/-- Modelled from the spec (§4.3): one step of the function pipeline as the
design document describes it, `set_count` included in declared order:
"applied strictly in declared order; each function receives the stack
produced by the previous one"; `set_count` "replaces the stack's quantity
with `roll(count)`". -/
def specStep (reg : Registry) (f : Function) (s : Stack) (g : RandStream) :
    Stack × RandStream :=
  if f.Function = "set_count" then
    let p := RollValue f.Count g
    ({ s with count := p.1 }, p.2)
  else applyOne reg f s g

/-- Modelled from the spec (§4.3): the whole pipeline in declared order over
the freshly minted base stack, randomness consumed in pipeline order. -/
def specPipeline (reg : Registry) :
    List Function → Stack → RandStream → Stack × RandStream
  | [], s, g => (s, g)
  | f :: fs, s, g =>
    let p := specStep reg f s g
    specPipeline reg fs p.1 p.2

/-! State-passing variant of the generation path, for the frame claim: the Go
receiver of `rollEntry` is `*Pool`, so we thread the pool (and table) store
explicitly and return it alongside the result.  The only write anywhere in
the generation path is `e.Weight = 1` in the first loop of `rollEntry`
(source line 115); Go's `range` loop variable `e` is a copy of the element,
so the write lands in the per-iteration copy while the slice backing
`p.Entries` is only ever read.
-/

/-- The first loop of `rollEntry` with the store made explicit: returns the
pool's entry store as it stands after the loop together with the
accumulated `totalWeight`.  The per-iteration copy `ecopy` receives the
`e.Weight = 1` write; the store keeps the original element. -/
def normalizeLoopP : List Entry → List Entry × Int
  | [] => ([], 0)
  | e :: rest =>
    let ecopy := if e.Weight = 0 then { e with Weight := 1 } else e
    let q := normalizeLoopP rest
    (e :: q.1, ecopy.Weight + q.2)

/-- Variant of `rollEntry` with the `*Pool` receiver threaded: returns the pool store
after the call together with the result. -/
def rollEntryP (reg : Registry) (p : Pool) (g : RandStream) :
    Pool × ((Stack × Bool) × RandStream) :=
  let n := normalizeLoopP p.Entries
  let p' : Pool := { p with Entries := n.1 }
  if n.2 ≤ 0 then (p', ((emptyStack, false), g))
  else
    let q := intn n.2 g
    (p', walkEntries reg p'.Entries q.1 0 q.2)

/-- The roll loop of `Generate` with the pool store threaded. -/
def genRollsP (reg : Registry) (p : Pool) :
    Nat → RandStream → Pool × (List Stack × RandStream)
  | 0, g => (p, ([], g))
  | n + 1, g =>
    let q := rollEntryP reg p g
    let rest := genRollsP reg q.1 n q.2.2
    (rest.1, ((if q.2.1.2 then [q.2.1.1] else []) ++ rest.2.1, rest.2.2))

/-- The pool loop of `Generate` with the table store threaded. -/
def genPoolsP (reg : Registry) :
    List Pool → RandStream → List Pool × (List Stack × RandStream)
  | [], g => ([], ([], g))
  | p :: ps, g =>
    let q := RollValue p.Rolls g
    let r := genRollsP reg p q.1.toNat q.2
    let rest := genPoolsP reg ps r.2.2
    (r.1 :: rest.1, (r.2.1 ++ rest.2.1, rest.2.2))

/-- Variant of `LootTable.Generate` with the table store threaded: returns the table
as it stands after the call together with the generated stacks. -/
def GenerateP (reg : Registry) (t : LootTable) (g : RandStream) :
    LootTable × (List Stack × RandStream) :=
  let q := genPoolsP reg t.Pools g
  (⟨q.1⟩, q.2)

/-! JSON model, for the parsing claims.  `LoadTable` feeds the raw bytes to
`encoding/json`; we model the already-lexed JSON document and the decoding
behaviour of `encoding/json` on the struct types of the source (string,
integer and slice fields; absent and `null` fields leave the zero value;
a shape mismatch is a deserialization error).
-/

/-- A JSON document (numbers restricted to integers, which is all the
table schema uses). -/
inductive Json where
  | num (n : Int)
  | str (s : String)
  | bool (b : Bool)
  | null
  | arr (xs : List Json)
  | obj (fields : List (String × Json))

/-- Field lookup in a JSON object. -/
def jField (fs : List (String × Json)) (k : String) : Option Json :=
  (fs.find? (fun q => q.1 = k)).map (fun q => q.2)

/-- Decoding of a `string` struct field: absent or `null` leaves the zero
value, a JSON string decodes, anything else is a type error. -/
def strField (fs : List (String × Json)) (k : String) : Except String String :=
  match jField fs k with
  | none => .ok ""
  | some .null => .ok ""
  | some (.str s) => .ok s
  | some _ => .error ("field " ++ k ++ ": expected string")

/-- Decoding of an `int` struct field. -/
def intField (fs : List (String × Json)) (k : String) : Except String Int :=
  match jField fs k with
  | none => .ok 0
  | some .null => .ok 0
  | some (.num n) => .ok n
  | some _ => .error ("field " ++ k ++ ": expected integer")

/-- Decoding of a slice struct field: absent or `null` is the empty slice,
an array decodes element-wise, anything else is a type error. -/
def listField (fs : List (String × Json)) (k : String) :
    Except String (List Json) :=
  match jField fs k with
  | none => .ok []
  | some .null => .ok []
  | some (.arr xs) => .ok xs
  | some _ => .error ("field " ++ k ++ ": expected array")

/-- Decoding a value into a struct: an object yields its fields, `null` is
a no-op (zero struct), anything else is a type error. -/
def objFields : Json → Except String (List (String × Json))
  | .obj fs => .ok fs
  | .null => .ok []
  | _ => .error "expected object"

/-- The `int`-or-zero reading of a `min`/`max` field inside the object
attempt of `Value.UnmarshalJSON`: absent and `null` give `0`, a number
gives its value, anything else fails the object attempt. -/
def intFieldOpt (fs : List (String × Json)) (k : String) : Option Int :=
  match jField fs k with
  | none => some 0
  | some .null => some 0
  | some (.num n) => some n
  | some _ => none

/-- The object-with-`min`/`max` attempt of `Value.UnmarshalJSON`
(source lines 98-105). -/
def tryMinMax : Json → Option (Int × Int)
  | .obj fs =>
    match intFieldOpt fs "min", intFieldOpt fs "max" with
    | some a, some b => some (a, b)
    | _, _ => none
  | _ => none

/-- Whether a JSON document is a bare number (the scalar attempt of
`Value.UnmarshalJSON`, source lines 93-97). -/
def Json.isNum : Json → Bool
  | .num _ => true
  | _ => false

/-- Source `Value.UnmarshalJSON` (lines 92-107), with the Go error return
kept in the type: scalar attempt first, then the object attempt, and the
final `return nil` leaves the zero range — every branch returns `.ok`. -/
def unmarshalValueE (j : Json) : Except String Value :=
  match j with
  | .num n => .ok ⟨n, n⟩
  | _ =>
    match tryMinMax j with
    | some q => .ok ⟨q.1, q.2⟩
    | none => .ok ⟨0, 0⟩

/-- The total reading of `Value.UnmarshalJSON` used inside the table
decoder (it never errors). -/
def unmarshalValue (j : Json) : Value :=
  match unmarshalValueE j with
  | .ok v => v
  | .error _ => ⟨0, 0⟩

/-- Decoding of a `Value` struct field: the custom unmarshaler is invoked
on a present field; an absent field keeps the zero range. -/
def valueField (fs : List (String × Json)) (k : String) : Value :=
  match jField fs k with
  | none => ⟨0, 0⟩
  | some j => unmarshalValue j

/-- Decoding one `EnchantConfig` (source lines 83-86). -/
def unmarshalEnchantConfig (j : Json) : Except String EnchantConfig := do
  let fs ← objFields j
  let i ← strField fs "id"
  return ⟨i, valueField fs "level"⟩

/-- Decoding one `Function` (source lines 75-81). -/
def unmarshalFunction (j : Json) : Except String Function := do
  let fs ← objFields j
  let fn ← strField fs "function"
  let i ← strField fs "id"
  let ejs ← listField fs "enchants"
  let ecs ← ejs.mapM unmarshalEnchantConfig
  return ⟨fn, valueField fs "count", valueField fs "levels", i, ecs⟩

/-- Decoding one `Entry` (source lines 68-73). -/
def unmarshalEntry (j : Json) : Except String Entry := do
  let fs ← objFields j
  let ty ← strField fs "type"
  let nm ← strField fs "name"
  let w ← intField fs "weight"
  let fjs ← listField fs "functions"
  let funcs ← fjs.mapM unmarshalFunction
  return ⟨ty, nm, w, funcs⟩

/-- Decoding one `Pool` (source lines 63-66). -/
def unmarshalPool (j : Json) : Except String Pool := do
  let fs ← objFields j
  let ejs ← listField fs "entries"
  let es ← ejs.mapM unmarshalEntry
  return ⟨valueField fs "rolls", es⟩

/-- Decoding the whole `LootTable` (source lines 59-61):
`json.Unmarshal(b, &t)` of `LoadTable`, source line 39. -/
def unmarshalTable (j : Json) : Except String LootTable := do
  let fs ← objFields j
  let pjs ← listField fs "pools"
  let ps ← pjs.mapM unmarshalPool
  return ⟨ps⟩

/-- Source `LoadTable` (lines 32-41): a missing file is an error; otherwise
the document is decoded. -/
def LoadTable (d : Option Json) : Except String LootTable :=
  match d with
  | none => .error "open: file does not exist"
  | some j => unmarshalTable j

/-- The package-level `Generate` entry point (source lines 20-29): a load
error yields no stacks and `false` (modelled as `none`); a loaded table is
generated. -/
def GenerateEntry (reg : Registry) (d : Option Json) (g : RandStream) :
    Option (List Stack) × RandStream :=
  match LoadTable d with
  | .error _ => (none, g)
  | .ok t =>
    let q := Generate reg t g
    (some q.1, q.2)

/-! Concrete sample data used by witnesses and counterexamples.
-/

/-- A small concrete registry: one resolvable item (`minecraft:stick`),
one resolvable potion item, an empty enchantment catalog. -/
def regSample : Registry :=
  { itemByName := fun n =>
      if n = "minecraft:stick" then some (Item.simple "stick")
      else if n = "minecraft:potion" then some (Item.potion "water")
      else none
  , allEnchantments := []
  , compat := fun _ _ => true
  , enchVal := fun k => ⟨k, 5⟩
  , potionVal := fun k => k }

/-- Registry `regSample` extended with a one-entry enchantment catalog, everything
compatible. -/
def regEnch : Registry :=
  { regSample with allEnchantments := [⟨"sharpness", 5⟩] }

/-- A pool holding one weight-0 item entry (rolls fixed at 1). -/
def poolW0 : Pool := ⟨⟨1, 1⟩, [⟨"item", "stick", 0, []⟩]⟩

/-- The same pool with the weight written as 1. -/
def poolW1 : Pool := ⟨⟨1, 1⟩, [⟨"item", "stick", 1, []⟩]⟩

/-- A `enchant_with_levels` function drawing its level count from `[1,2]`. -/
def fEWL : Function := ⟨"enchant_with_levels", ⟨0, 0⟩, ⟨1, 2⟩, "", []⟩

/-- A `set_count` function drawing its count from `[3,4]`. -/
def fSC : Function := ⟨"set_count", ⟨3, 4⟩, ⟨0, 0⟩, "", []⟩

/-! Helper lemmas -/

lemma intn_bounds (n : Int) (hn : 0 < n) (g : RandStream) :
    0 ≤ (intn n g).1 ∧ (intn n g).1 < n := by
  cases g with
  | nil => simpa [intn] using hn
  | cons d g' =>
    simp only [intn]
    exact ⟨Int.emod_nonneg _ (by omega), Int.emod_lt_of_pos _ hn⟩

lemma intn_one (g : RandStream) : (intn 1 g).1 = 0 := by
  cases g with
  | nil => rfl
  | cons d g' => simp [intn, Int.emod_one]

lemma genPools_append (reg : Registry) (P1 P2 : List Pool) (g : RandStream) :
    genPools reg (P1 ++ P2) g =
      ((genPools reg P1 g).1 ++ (genPools reg P2 (genPools reg P1 g).2).1,
       (genPools reg P2 (genPools reg P1 g).2).2) := by
  induction P1 generalizing g with
  | nil => simp [genPools]
  | cons p ps ih => simp [genPools, ih, List.append_assoc]

lemma normalizeLoopP_eq (es : List Entry) :
    normalizeLoopP es = (es, totalWeight es) := by
  induction es with
  | nil => rfl
  | cons e rest ih =>
    simp only [normalizeLoopP, ih, totalWeight]
    by_cases h : e.Weight = 0 <;> simp [h, normWeight]

lemma rollEntryP_eq (reg : Registry) (p : Pool) (g : RandStream) :
    rollEntryP reg p g = (p, rollEntry reg p g) := by
  by_cases h : totalWeight p.Entries ≤ 0 <;>
    simp [rollEntryP, rollEntry, normalizeLoopP_eq, h]

lemma genRollsP_eq (reg : Registry) (p : Pool) (n : Nat) (g : RandStream) :
    genRollsP reg p n g = (p, genRolls reg p n g) := by
  induction n generalizing g with
  | zero => rfl
  | succ n ih => simp [genRollsP, genRolls, rollEntryP_eq, ih]

lemma genPoolsP_eq (reg : Registry) (ps : List Pool) (g : RandStream) :
    genPoolsP reg ps g = (ps, genPools reg ps g) := by
  induction ps generalizing g with
  | nil => rfl
  | cons p rest ih => simp [genPoolsP, genPools, genPool, genRollsP_eq, ih]

/-! Claim theorems -/

/-- C4: for every `Value` range with `Max ≤ Min`, `RollValue` returns
exactly `Min` and consumes no draw, for any state of the random stream;
for every range with `Max > Min` the returned value always lies in the
inclusive interval `[Min, Max]`. -/
theorem claim4_roll_value :
    (∀ (v : Value) (g : RandStream), v.Max ≤ v.Min → RollValue v g = (v.Min, g))
    ∧ (∀ (v : Value) (g : RandStream), v.Min < v.Max →
        v.Min ≤ (RollValue v g).1 ∧ (RollValue v g).1 ≤ v.Max) := by
  constructor
  · intro v g h
    simp [RollValue, h]
  · intro v g h
    have hn : (0 : Int) < v.Max - v.Min + 1 := by omega
    have hb := intn_bounds (v.Max - v.Min + 1) hn g
    have hle : ¬ v.Max ≤ v.Min := by omega
    simp only [RollValue, if_neg hle]
    omega

/-- Witness for C4 at concrete inputs. -/
theorem claim4_roll_value_witness :
    ((3 : Int) ≤ 3 ∧ RollValue ⟨3, 3⟩ [7] = (3, [7]))
    ∧ ((1 : Int) < 4 ∧ (1 : Int) ≤ (RollValue ⟨1, 4⟩ [6]).1
        ∧ (RollValue ⟨1, 4⟩ [6]).1 ≤ 4) :=
  ⟨⟨by decide, claim4_roll_value.1 ⟨3, 3⟩ [7] (by decide)⟩,
   ⟨by decide, claim4_roll_value.2 ⟨1, 4⟩ [6] (by decide)⟩⟩

/-- C7: a pool whose entries list is empty: every `rollEntry` on it returns
the zero stack with `ok = false` and leaves the stream untouched, every
roll loop over it contributes no stack, and a table containing such a pool
generates all other pools exactly as usual (the degenerate pool consumes
only its roll-count draw and contributes nothing); generation never
fails. -/
theorem claim7_empty_pool :
    (∀ (reg : Registry) (rv : Value) (g : RandStream),
        rollEntry reg ⟨rv, []⟩ g = ((emptyStack, false), g))
    ∧ (∀ (reg : Registry) (rv : Value) (n : Nat) (g : RandStream),
        genRolls reg ⟨rv, []⟩ n g = ([], g))
    ∧ (∀ (reg : Registry) (rv : Value) (g : RandStream) (P1 P2 : List Pool),
        Generate reg ⟨P1 ++ ⟨rv, []⟩ :: P2⟩ g =
          ((genPools reg P1 g).1 ++
             (genPools reg P2 (RollValue rv (genPools reg P1 g).2).2).1,
           (genPools reg P2 (RollValue rv (genPools reg P1 g).2).2).2)) := by
  have h1 : ∀ (reg : Registry) (rv : Value) (g : RandStream),
      rollEntry reg ⟨rv, []⟩ g = ((emptyStack, false), g) := by
    intro reg rv g
    simp [rollEntry, totalWeight]
  have h2 : ∀ (reg : Registry) (rv : Value) (n : Nat) (g : RandStream),
      genRolls reg ⟨rv, []⟩ n g = ([], g) := by
    intro reg rv n
    induction n with
    | zero => intro g; rfl
    | succ n ih => intro g; simp [genRolls, h1, ih]
  refine ⟨h1, h2, ?_⟩
  intro reg rv g P1 P2
  simp [Generate, genPools_append, genPools, genPool, h2]

/-- C1 (code bug): the weight-0 normalization of the first loop of
`rollEntry` is written to a per-iteration copy, so it inflates
`totalWeight` but never reaches the selection walk.  On a pool with a
single weight-0 item entry, `totalWeight` is 1, yet the walk (which adds
the raw weight 0) never selects the entry: the roll consumes its draw and
returns the zero stack with `ok = false` for every random stream —
while the same pool with weight 1 yields the item. -/
theorem claim1_weight_zero_eval :
    totalWeight poolW0.Entries = 1
    ∧ (∀ g : RandStream,
        rollEntry regSample poolW0 g = ((emptyStack, false), (intn 1 g).2))
    ∧ (rollEntry regSample poolW1 [0]).1 = (⟨Item.simple "stick", 1, []⟩, true) := by
  refine ⟨by decide, ?_, by decide⟩
  intro g
  have h0 : (intn 1 g).1 = 0 := intn_one g
  simp [rollEntry, poolW0, totalWeight, normWeight, walkEntries, h0]

lemma rollEntry_single_item (reg : Registry) (nm : String) (fs : List Function)
    (rv : Value) (it : Item) (g : RandStream)
    (h : reg.itemByName ("minecraft:" ++ trimPre "minecraft:" nm) = some it) :
    rollEntry reg ⟨rv, [⟨"item", nm, 1, fs⟩]⟩ g =
      (((runFunctions reg it fs (intn 1 g).2).1, true),
       (runFunctions reg it fs (intn 1 g).2).2) := by
  have h0 := intn_one g
  simp [rollEntry, totalWeight, normWeight, walkEntries, h0, processEntry, h]

/-- C5: a pool with `rolls = {min 2, max 2}` and a single weight-1 `item`
entry whose identifier the item registry resolves yields exactly 2 stacks
per generation call, for any random stream. -/
theorem claim5_two_rolls :
    ∀ (reg : Registry) (nm : String) (fs : List Function) (g : RandStream)
      (it : Item),
      reg.itemByName ("minecraft:" ++ trimPre "minecraft:" nm) = some it →
      (genPool reg ⟨⟨2, 2⟩, [⟨"item", nm, 1, fs⟩]⟩ g).1.length = 2 := by
  intro reg nm fs g it h
  have h1 := rollEntry_single_item reg nm fs ⟨2, 2⟩ it g h
  have h2 := rollEntry_single_item reg nm fs ⟨2, 2⟩ it
      ((runFunctions reg it fs (intn 1 g).2).2) h
  simp [genPool, RollValue, genRolls, h1, h2]

/-- Witness for C5 at a concrete registry, entry and stream. -/
theorem claim5_two_rolls_witness :
    regSample.itemByName ("minecraft:" ++ trimPre "minecraft:" "stick")
        = some (Item.simple "stick")
    ∧ (genPool regSample ⟨⟨2, 2⟩, [⟨"item", "stick", 1, []⟩]⟩ [5, 6]).1.length = 2 :=
  ⟨by decide,
   claim5_two_rolls regSample "stick" [] [5, 6] (Item.simple "stick") (by decide)⟩

lemma walk_selectIdx_none (reg : Registry) :
    ∀ (es : List Entry) (r cur : Int) (g : RandStream),
      selectIdx es r cur = none →
      walkEntries reg es r cur g = ((emptyStack, false), g) := by
  intro es
  induction es with
  | nil => intro r cur g _; rfl
  | cons e rest ih =>
    intro r cur g h
    by_cases hc : r < cur + e.Weight
    · simp [selectIdx, hc] at h
    · simp only [selectIdx, if_neg hc, Option.map_eq_none'] at h
      simp only [walkEntries, if_neg hc]
      exact ih _ _ _ h

lemma walk_selectIdx_some (reg : Registry) :
    ∀ (es : List Entry) (r cur : Int) (g : RandStream) (i : Nat),
      selectIdx es r cur = some i →
      walkEntries reg es r cur g = processEntry reg (es.getD i defaultEntry) g := by
  intro es
  induction es with
  | nil => intro r cur g i h; simp [selectIdx] at h
  | cons e rest ih =>
    intro r cur g i h
    by_cases hc : r < cur + e.Weight
    · simp only [selectIdx, if_pos hc, Option.some.injEq] at h
      subst h
      simp [walkEntries, if_pos hc, List.getD]
    · simp only [selectIdx, if_neg hc] at h
      cases hj : selectIdx rest r (cur + e.Weight) with
      | none => rw [hj] at h; simp at h
      | some j =>
        rw [hj] at h
        simp only [Option.map_some', Option.some.injEq] at h
        subst h
        simp only [walkEntries, if_neg hc]
        rw [ih _ _ _ _ hj]
        simp [List.getD]

lemma rollEntry_single_nonitem (reg : Registry) (rv : Value) (e : Entry)
    (g : RandStream) (h : e.Typ ≠ "item") :
    (rollEntry reg ⟨rv, [e]⟩ g).1 = (emptyStack, false) := by
  by_cases htw : totalWeight [e] ≤ 0
  · simp [rollEntry, htw]
  · simp only [rollEntry, if_neg htw]
    by_cases hc : (intn (totalWeight [e]) g).1 < e.Weight
    · simp [walkEntries, hc, processEntry, h]
    · simp [walkEntries, hc]

lemma genRolls_single_nonitem (reg : Registry) (rv : Value) (e : Entry)
    (h : e.Typ ≠ "item") :
    ∀ (n : Nat) (g : RandStream), (genRolls reg ⟨rv, [e]⟩ n g).1 = [] := by
  intro n
  induction n with
  | zero => intro g; rfl
  | succ n ih =>
    intro g
    have hq := rollEntry_single_nonitem reg rv e g h
    simp [genRolls, hq, ih]

/-- C6: when the weighted draw of `rollEntry` selects an entry whose type
is not `"item"`, the roll is consumed and `rollEntry` returns the zero
stack with `ok = false` — no retry, no fallback; consequently a pool whose
single entry has a non-`"item"` type contributes zero stacks in every
roll, and a table containing it still generates all other pools. -/
theorem claim6_non_item :
    (∀ (reg : Registry) (p : Pool) (g : RandStream) (i : Nat),
        0 < totalWeight p.Entries →
        selectIdx p.Entries (intn (totalWeight p.Entries) g).1 0 = some i →
        (p.Entries.getD i defaultEntry).Typ ≠ "item" →
        rollEntry reg p g = ((emptyStack, false), (intn (totalWeight p.Entries) g).2))
    ∧ (∀ (reg : Registry) (rv : Value) (e : Entry) (g : RandStream),
        e.Typ ≠ "item" →
        (genPool reg ⟨rv, [e]⟩ g).1 = [])
    ∧ (∀ (reg : Registry) (rv : Value) (e : Entry) (g : RandStream)
        (P1 P2 : List Pool),
        e.Typ ≠ "item" →
        (Generate reg ⟨P1 ++ ⟨rv, [e]⟩ :: P2⟩ g).1 =
          (genPools reg P1 g).1 ++
            (genPools reg P2 (genPool reg ⟨rv, [e]⟩ (genPools reg P1 g).2).2).1) := by
  have hgp : ∀ (reg : Registry) (rv : Value) (e : Entry) (g : RandStream),
      e.Typ ≠ "item" → (genPool reg ⟨rv, [e]⟩ g).1 = [] := by
    intro reg rv e g h
    simp [genPool, genRolls_single_nonitem reg rv e h]
  refine ⟨?_, hgp, ?_⟩
  · intro reg p g i htw hsel hty
    have hne : ¬ totalWeight p.Entries ≤ 0 := by omega
    simp only [rollEntry, if_neg hne]
    rw [walk_selectIdx_some reg _ _ _ _ _ hsel]
    simp only [processEntry, if_pos hty]
  · intro reg rv e g P1 P2 h
    simp [Generate, genPools_append, genPools, hgp reg rv e _ h]

/-- Witness for C6 at a concrete non-`item` entry. -/
theorem claim6_non_item_witness :
    ("loot_table" ≠ "item")
    ∧ rollEntry regSample ⟨⟨1, 1⟩, [⟨"loot_table", "x", 1, []⟩]⟩ [0]
        = ((emptyStack, false), [])
    ∧ (genPool regSample ⟨⟨1, 1⟩, [⟨"loot_table", "x", 1, []⟩]⟩ [0]).1 = [] :=
  ⟨by decide,
   claim6_non_item.1 regSample ⟨⟨1, 1⟩, [⟨"loot_table", "x", 1, []⟩]⟩ [0] 0
     (by decide) (by decide) (by decide),
   claim6_non_item.2.1 regSample ⟨1, 1⟩ ⟨"loot_table", "x", 1, []⟩ [0] (by decide)⟩

lemma specPipeline_append (reg : Registry) (l1 l2 : List Function) (s : Stack)
    (g : RandStream) :
    specPipeline reg (l1 ++ l2) s g =
      specPipeline reg l2 (specPipeline reg l1 s g).1 (specPipeline reg l1 s g).2 := by
  induction l1 generalizing s g with
  | nil => simp [specPipeline]
  | cons f fs ih => simp [specPipeline, ih]

lemma specPipeline_setCounts (reg : Registry) (fs : List Function) (it : Item)
    (en : List Enchantment) :
    ∀ (c : Int) (g : RandStream),
      specPipeline reg (fs.filter (fun f => f.Function == "set_count")) ⟨it, c, en⟩ g =
        (⟨it,
          (fs.foldl
            (fun acc f =>
              if f.Function = "set_count" then RollValue f.Count acc.2 else acc)
            (c, g)).1, en⟩,
         (fs.foldl
            (fun acc f =>
              if f.Function = "set_count" then RollValue f.Count acc.2 else acc)
            (c, g)).2) := by
  induction fs with
  | nil => intro c g; simp [specPipeline]
  | cons f fs ih =>
    intro c g
    by_cases h : f.Function = "set_count"
    · simp [h, specPipeline, specStep, ih]
    · simp [h, ih]

lemma applyFunctions_eq_filter (reg : Registry) :
    ∀ (fs : List Function) (s : Stack) (g : RandStream),
      applyFunctions reg fs s g =
        specPipeline reg (fs.filter (fun f => !(f.Function == "set_count"))) s g := by
  intro fs
  induction fs with
  | nil => intro s g; rfl
  | cons f fs ih =>
    intro s g
    by_cases h : f.Function = "set_count"
    · have ha : applyOne reg f s g = (s, g) := by simp [applyOne, h]
      simp [applyFunctions, ha, h, ih]
    · have hs : specStep reg f s g = applyOne reg f s g := by simp [specStep, h]
      simp [applyFunctions, h, specPipeline, hs, ih]

/-- C2 (counterexample): with the declared function list
`[enchant_with_levels, set_count]` and the stream `[1, 0]`, the code's
function phase draws the `set_count` range first (count pre-pass) and
produces count 4, whereas the pipeline-in-declared-order semantics the
claim describes would draw the levels first and produce count 3. -/
theorem claim2_pipeline_counterexample :
    (runFunctions regSample (Item.simple "stick") [fEWL, fSC] [1, 0]).1.count = 4
    ∧ (specPipeline regSample [fEWL, fSC]
        (newStack (Item.simple "stick") 1) [1, 0]).1.count = 3
    ∧ (runFunctions regSample (Item.simple "stick") [fEWL, fSC] [1, 0]).1
        ≠ (specPipeline regSample [fEWL, fSC]
            (newStack (Item.simple "stick") 1) [1, 0]).1 := by
  refine ⟨?_, ?_, ?_⟩ <;> decide

/-- C2 (amended): the function phase of `rollEntry` behaves like the
spec's in-order pipeline run on the stably reordered function list in
which every `set_count` comes first: `set_count` functions take effect
and draw in declared order among themselves, but before all other
functions; the remaining functions are applied strictly in declared
order, each receiving the stack produced by the previous one, drawing
in that order. -/
theorem claim2_pipeline_amended :
    ∀ (reg : Registry) (it : Item) (fs : List Function) (g : RandStream),
      runFunctions reg it fs g =
        specPipeline reg
          (fs.filter (fun f => f.Function == "set_count")
            ++ fs.filter (fun f => !(f.Function == "set_count")))
          (newStack it 1) g := by
  intro reg it fs g
  rw [specPipeline_append]
  have hbase : (newStack it 1 : Stack) = ⟨it, 1, []⟩ := rfl
  rw [hbase, specPipeline_setCounts reg fs it [] 1 g, ← applyFunctions_eq_filter]
  rfl

lemma ewl_aux_spec (reg : Registry) (s : Stack) :
    ∀ (L : List EnchantmentType) (levels : Int) (g : RandStream),
      (levels ≤ 0 → enchantWithLevelsAux reg s levels g L = (s, g))
      ∧ (L.find? (fun enc => reg.compat enc s.it) = none →
          enchantWithLevelsAux reg s levels g L = (s, g))
      ∧ (∀ enc, L.find? (fun enc => reg.compat enc s.it) = some enc →
          0 < levels →
          ((levels ≤ 15 ∨ enc.maxLevel ≤ 1 →
              enchantWithLevelsAux reg s levels g L =
                (withEnchantment s ⟨enc, 1⟩, g))
           ∧ (15 < levels → 1 < enc.maxLevel →
              enchantWithLevelsAux reg s levels g L =
                (withEnchantment s ⟨enc, (intn enc.maxLevel g).1 + 1⟩,
                 (intn enc.maxLevel g).2)))) := by
  intro L
  induction L with
  | nil =>
    intro levels g
    refine ⟨fun _ => rfl, fun _ => rfl, ?_⟩
    intro enc h
    simp [List.find?] at h
  | cons a L ih =>
    intro levels g
    by_cases hc : reg.compat a s.it = true
    · refine ⟨?_, ?_, ?_⟩
      · intro hl
        have hnl : ¬ (0 : Int) < levels := by omega
        simp only [enchantWithLevelsAux, if_pos hc, if_neg hnl]
        exact (ih levels g).1 hl
      · intro hf
        simp [List.find?, hc] at hf
      · intro enc hf hl
        simp only [List.find?, hc] at hf
        injection hf with hf
        subst hf
        constructor
        · intro hor
          have hnot : ¬ (15 < levels ∧ 1 < a.maxLevel) := by
            rcases hor with h1 | h2 <;> omega
          simp only [enchantWithLevelsAux, if_pos hc, if_pos hl, if_neg hnot]
        · intro h15 hmx
          have hand : 15 < levels ∧ 1 < a.maxLevel := ⟨h15, hmx⟩
          simp only [enchantWithLevelsAux, if_pos hc, if_pos hl, if_pos hand]
    · have hcf : reg.compat a s.it = false := by
        cases hcc : reg.compat a s.it
        · rfl
        · exact absurd hcc hc
      have hf : List.find? (fun enc => reg.compat enc s.it) (a :: L) =
          List.find? (fun enc => reg.compat enc s.it) L := by
        simp only [List.find?, hcf]
      have haux : enchantWithLevelsAux reg s levels g (a :: L) =
          enchantWithLevelsAux reg s levels g L := by
        simp only [enchantWithLevelsAux, hcf]
        simp
      rw [hf, haux]
      exact ih levels g

/-- C3 (amended): `applyEnchantWithLevels` attaches the first catalog
enchantment compatible with the stack's item kind only when
`0 < levels`: at level 1 when `levels ≤ 15` (or the enchantment's max
level is at most 1), and at a level drawn in `[1, maxLevel]` when
`levels > 15` and `maxLevel > 1`; when `levels ≤ 0`, or when no
compatible enchantment exists, the stack is returned unchanged. -/
theorem claim3_enchant_with_levels_amended :
    ∀ (reg : Registry) (s : Stack) (levels : Int) (g : RandStream),
      (levels ≤ 0 → applyEnchantWithLevels reg s levels g = (s, g))
      ∧ ((getAllEnchantments reg).find? (fun enc => reg.compat enc s.it) = none →
          applyEnchantWithLevels reg s levels g = (s, g))
      ∧ (∀ enc,
          (getAllEnchantments reg).find? (fun enc => reg.compat enc s.it) = some enc →
          0 < levels →
          ((levels ≤ 15 ∨ enc.maxLevel ≤ 1 →
              applyEnchantWithLevels reg s levels g =
                (withEnchantment s ⟨enc, 1⟩, g))
           ∧ (15 < levels → 1 < enc.maxLevel →
              applyEnchantWithLevels reg s levels g =
                (withEnchantment s ⟨enc, (intn enc.maxLevel g).1 + 1⟩,
                 (intn enc.maxLevel g).2)
              ∧ 1 ≤ (intn enc.maxLevel g).1 + 1
              ∧ (intn enc.maxLevel g).1 + 1 ≤ enc.maxLevel))) := by
  intro reg s levels g
  have h := ewl_aux_spec reg s (getAllEnchantments reg) levels g
  refine ⟨h.1, h.2.1, ?_⟩
  intro enc hf hl
  refine ⟨(h.2.2 enc hf hl).1, ?_⟩
  intro h15 hmx
  have hb := intn_bounds enc.maxLevel (by omega) g
  exact ⟨(h.2.2 enc hf hl).2 h15 hmx, by omega, by omega⟩

/-- C3 (counterexample): with a catalog holding the compatible
enchantment `sharpness` and `levels = 0` (which is `≤ 15`), nothing is
attached at all — the stack comes back unchanged instead of carrying the
enchantment at level 1. -/
theorem claim3_levels_counterexample :
    (getAllEnchantments regEnch).find?
        (fun enc => regEnch.compat enc (Item.simple "sword")) = some ⟨"sharpness", 5⟩
    ∧ applyEnchantWithLevels regEnch (newStack (Item.simple "sword") 1) 0 []
        = (newStack (Item.simple "sword") 1, [])
    ∧ (applyEnchantWithLevels regEnch
        (newStack (Item.simple "sword") 1) 0 []).1.enchants = [] := by
  refine ⟨?_, ?_, ?_⟩ <;> decide

/-- Witness for the amended C3 at a concrete catalog, stack and stream. -/
theorem claim3_enchant_with_levels_amended_witness :
    (0 : Int) < 20
    ∧ (getAllEnchantments regEnch).find?
        (fun enc => regEnch.compat enc (newStack (Item.simple "sword") 1).it)
        = some ⟨"sharpness", 5⟩
    ∧ (applyEnchantWithLevels regEnch (newStack (Item.simple "sword") 1) 20 [7] =
          (withEnchantment (newStack (Item.simple "sword") 1)
            ⟨⟨"sharpness", 5⟩, (intn 5 [7]).1 + 1⟩, (intn 5 [7]).2)
        ∧ 1 ≤ (intn 5 [7]).1 + 1 ∧ (intn 5 [7]).1 + 1 ≤ 5) :=
  ⟨by decide, by decide,
   ((claim3_enchant_with_levels_amended regEnch
      (newStack (Item.simple "sword") 1) 20 [7]).2.2
     ⟨"sharpness", 5⟩ (by decide) (by decide)).2 (by decide) (by decide)⟩

/-- C8: `Value` parsing tries the scalar-integer reading first, then the
object-with-`min`/`max` reading, and otherwise yields the zero range —
and it never returns an error; any deserialization error in the top-level
table structure makes `LoadTable` return an error, so table generation is
never run on a malformed document. -/
theorem claim8_parsing :
    (∀ j : Json, (unmarshalValueE j).isOk = true)
    ∧ (∀ n : Int, unmarshalValueE (Json.num n) = .ok ⟨n, n⟩)
    ∧ (∀ (j : Json) (q : Int × Int), Json.isNum j = false → tryMinMax j = some q →
        unmarshalValueE j = .ok ⟨q.1, q.2⟩)
    ∧ (∀ j : Json, Json.isNum j = false → tryMinMax j = none →
        unmarshalValueE j = .ok ⟨0, 0⟩)
    ∧ (∀ (reg : Registry) (j : Json) (g : RandStream) (e : String),
        unmarshalTable j = .error e → GenerateEntry reg (some j) g = (none, g)) := by
  have hmatch : ∀ (o : Option (Int × Int)),
      (match o with
        | some q => (Except.ok (⟨q.1, q.2⟩ : Value) : Except String Value)
        | none => Except.ok ⟨0, 0⟩).isOk = true := by
    intro o
    cases o <;> rfl
  refine ⟨?_, fun n => rfl, ?_, ?_, ?_⟩
  · intro j
    cases j <;> first | rfl | exact hmatch _
  · intro j q hnum hmm
    cases j <;> simp_all [unmarshalValueE, Json.isNum]
  · intro j hnum hmm
    cases j <;> simp_all [unmarshalValueE, Json.isNum]
  · intro reg j g e h
    simp [GenerateEntry, LoadTable, h]

/-- Witness for C8 at concrete documents, including a malformed top level
(`pools` holding a string). -/
theorem claim8_parsing_witness :
    (unmarshalValueE (Json.str "x")).isOk = true
    ∧ unmarshalValueE (Json.num 7) = .ok ⟨7, 7⟩
    ∧ (Json.isNum (Json.obj [("min", Json.num 1), ("max", Json.num 5)]) = false
       ∧ unmarshalValueE (Json.obj [("min", Json.num 1), ("max", Json.num 5)])
           = .ok ⟨1, 5⟩)
    ∧ (Json.isNum (Json.bool true) = false ∧ tryMinMax (Json.bool true) = none
       ∧ unmarshalValueE (Json.bool true) = .ok ⟨0, 0⟩)
    ∧ (unmarshalTable (Json.obj [("pools", Json.str "bad")])
         = .error "field pools: expected array"
       ∧ GenerateEntry regSample (some (Json.obj [("pools", Json.str "bad")])) [0]
           = (none, [0])) :=
  ⟨claim8_parsing.1 (Json.str "x"),
   claim8_parsing.2.1 7,
   ⟨rfl, claim8_parsing.2.2.1 (Json.obj [("min", Json.num 1), ("max", Json.num 5)])
      (1, 5) rfl rfl⟩,
   ⟨rfl, rfl, claim8_parsing.2.2.2.1 (Json.bool true) rfl rfl⟩,
   ⟨rfl, claim8_parsing.2.2.2.2 regSample (Json.obj [("pools", Json.str "bad")]) [0]
      "field pools: expected array" rfl⟩⟩

lemma strData_append (a b : String) : (a ++ b).data = a.data ++ b.data := by
  cases a; cases b; rfl

lemma isPre_refl_append (l t : List Char) : l.isPrefixOf (l ++ t) = true := by
  induction l with
  | nil => simp [List.isPrefixOf]
  | cons c l ih => simp [List.isPrefixOf, ih]

lemma trimPre_append (p s : String) : trimPre p (p ++ s) = s := by
  have h1 : (p ++ s).data = p.data ++ s.data := strData_append p s
  simp only [trimPre, h1, isPre_refl_append, if_true, List.drop_left]

lemma trimPre_no (p s : String) (h : p.data.isPrefixOf s.data = false) :
    trimPre p s = s := by
  simp [trimPre, h]

/-- C10 (amended): identifier resolution is invariant under adding one
lowercase `minecraft:` prefix to a not-yet-prefixed name (for the item
lookup of `rollEntry` as well as for `enchantmentByName` and
`potionByName`), and the two name maps are case-insensitive in the part
that remains after prefix stripping (the prefix itself is stripped
case-sensitively, before lowering). -/
theorem claim10_resolution_amended :
    (∀ (reg : Registry) (e : Entry) (g : RandStream),
        "minecraft:".data.isPrefixOf e.Name.data = false →
        processEntry reg { e with Name := "minecraft:" ++ e.Name } g =
          processEntry reg e g)
    ∧ (∀ (reg : Registry) (n : String),
        "minecraft:".data.isPrefixOf n.data = false →
        enchantmentByName reg ("minecraft:" ++ n) = enchantmentByName reg n
        ∧ potionByName reg ("minecraft:" ++ n) = potionByName reg n)
    ∧ (∀ (reg : Registry) (n m : String),
        lowerStr (trimPre "minecraft:" n) = lowerStr (trimPre "minecraft:" m) →
        enchantmentByName reg n = enchantmentByName reg m
        ∧ potionByName reg n = potionByName reg m) := by
  refine ⟨?_, ?_, ?_⟩
  · intro reg e g h
    have hk : trimPre "minecraft:" ("minecraft:" ++ e.Name) =
        trimPre "minecraft:" e.Name := by
      rw [trimPre_append, trimPre_no _ _ h]
    simp only [processEntry, hk]
  · intro reg n h
    have hk : trimPre "minecraft:" ("minecraft:" ++ n) = trimPre "minecraft:" n := by
      rw [trimPre_append, trimPre_no _ _ h]
    exact ⟨by simp only [enchantmentByName, hk], by simp only [potionByName, hk]⟩
  · intro reg n m h
    exact ⟨by simp only [enchantmentByName, h], by simp only [potionByName, h]⟩

/-- C10 (counterexample): `enchantmentByName` resolves `protection` and
`minecraft:protection`, but the case variation `Minecraft:protection` of
the prefixed form fails to resolve — the prefix is stripped before
lowering, case-sensitively. -/
theorem claim10_case_counterexample :
    (enchantmentByName regSample "protection").2 = true
    ∧ (enchantmentByName regSample "minecraft:protection").2 = true
    ∧ (enchantmentByName regSample "Minecraft:protection").2 = false := by
  refine ⟨?_, ?_, ?_⟩ <;> decide

/-- Witness for the amended C10 at concrete names. -/
theorem claim10_resolution_amended_witness :
    ("minecraft:".data.isPrefixOf "stick".data = false
      ∧ processEntry regSample ⟨"item", "minecraft:" ++ "stick", 1, []⟩ [4]
          = processEntry regSample ⟨"item", "stick", 1, []⟩ [4])
    ∧ enchantmentByName regSample ("minecraft:" ++ "protection")
        = enchantmentByName regSample "protection"
    ∧ (lowerStr (trimPre "minecraft:" "PROTECTION")
          = lowerStr (trimPre "minecraft:" "protection")
      ∧ enchantmentByName regSample "PROTECTION"
          = enchantmentByName regSample "protection") :=
  ⟨⟨by decide,
    claim10_resolution_amended.1 regSample ⟨"item", "stick", 1, []⟩ [4] (by decide)⟩,
   (claim10_resolution_amended.2.1 regSample "protection" (by decide)).1,
   ⟨by decide,
    (claim10_resolution_amended.2.2 regSample "PROTECTION" "protection" (by decide)).1⟩⟩

/-- C9: generation never mutates the loot table.  In the state-passing
embedding where the `*Pool` receiver of `rollEntry` (and hence any write
it could perform through the pool) is threaded explicitly, the table
coming out of `GenerateP` is exactly the table that went in — including
weight-0 entries, whose normalization only ever touches the iteration
copy — and the produced stacks agree with the plain model. -/
theorem claim9_no_mutation :
    ∀ (reg : Registry) (t : LootTable) (g : RandStream),
      (GenerateP reg t g).1 = t ∧ (GenerateP reg t g).2 = Generate reg t g := by
  intro reg t g
  constructor <;> simp [GenerateP, Generate, genPoolsP_eq]

end Loot
